import Mathlib

/-!
Verification of the solar-challenge-week0 repository core logic.

We shallowly embed the reusable logic of the repository:

* `src/data_processing.py` — `SolarDataCleaner.drop_high_missing`;
* `app/utils.py` — `load_data`, `calculate_metrics`;
* `app/main.py` — the ranking computation of `show_regional_rankings`.

Modelling conventions:

* A pandas `DataFrame` is a `Table`: a list of named columns, each a list
  of cells.  A cell is either missing (`Cell.na`, modelling `NaN`), a
  numeric value (a rational, idealising the source's floats), or a string.
* A raised, uncaught Python exception is modelled by an `Option`-valued
  function returning `none`.
* `print` warnings are modelled by returning the list of warning strings.
-/

namespace Solar

/-- A cell of a table: missing (pandas `NaN`), a number, or a string. -/
inductive Cell where
  | na : Cell
  | num : ℚ → Cell
  | str : String → Cell
deriving DecidableEq, Repr

/-- A column is the list of its cells, in row order. -/
abbrev Column := List Cell

/-- A pandas `DataFrame`: named columns in order.  (In a well-formed frame
all columns have the same length; see `Table.WellFormed`.) -/
structure Table where
  cols : List (String × Column)
deriving DecidableEq, Repr

/-- `len(df)`: the number of rows.  For a well-formed table every column
has this length; we read it off the first column. -/
def Table.nrows (t : Table) : ℕ :=
  match t.cols with
  | [] => 0
  | c :: _ => c.2.length

/-- All columns have the common row count. -/
def Table.WellFormed (t : Table) : Prop :=
  ∀ c ∈ t.cols, c.2.length = t.nrows

instance (t : Table) : Decidable t.WellFormed :=
  List.decidableBAll _ t.cols

/-- `df[name]`: the first column with the given name, `none` if absent
(modelling a `KeyError`). -/
def Table.getCol (t : Table) (name : String) : Option Column :=
  (t.cols.find? (fun c => c.1 = name)).map Prod.snd

/-- `Cell.isna`: pandas `isna` on one cell. -/
def Cell.isna : Cell → Bool
  | .na => true
  | _ => false

/-! ## `src/data_processing.py` — `SolarDataCleaner` -/

/-- Number of missing entries of a column (`df.isna()` summed). -/
def countNa (c : Column) : ℕ := c.countP Cell.isna

/-- `df.isna().mean()` for one column: the fraction of missing entries,
`none` when the column has no rows (pandas yields `NaN` there). -/
def missingFrac (c : Column) : Option ℚ :=
  if c.length = 0 then none else some ((countNa c : ℚ) / (c.length : ℚ))

/-- `missing_frac > threshold` for one column.  A `NaN` fraction (empty
column) compares false, exactly as the float comparison does. -/
def fracExceeds (c : Column) (threshold : ℚ) : Bool :=
  match missingFrac c with
  | none => false
  | some q => decide (threshold < q)

/-- `missing_frac[missing_frac > threshold].index.tolist()`. -/
def colsToDrop (t : Table) (threshold : ℚ) : List String :=
  (t.cols.filter (fun nc => fracExceeds nc.2 threshold)).map Prod.fst

/-- `df.drop(columns=names)`: remove every column whose name is listed. -/
def Table.dropColumns (t : Table) (names : List String) : Table :=
  ⟨t.cols.filter (fun nc => !names.contains nc.1)⟩

/-- The state of a `SolarDataCleaner` object: its stored frame `self.df`. -/
structure SolarDataCleaner where
  df : Table
deriving DecidableEq

/-- Body of `drop_high_missing` as a function of the stored frame. -/
def dropHighMissing (t : Table) (threshold : ℚ) : Table :=
  t.dropColumns (colsToDrop t threshold)

/-- `SolarDataCleaner.drop_high_missing`: the method reads `self.df` and
returns a new frame; the second component is the object state after the
call (the method never assigns to `self`). -/
def SolarDataCleaner.drop_high_missing (cl : SolarDataCleaner)
    (threshold : ℚ) : Table × SolarDataCleaner :=
  (dropHighMissing cl.df threshold, cl)

/-! ## `app/utils.py` — `load_data` and `calculate_metrics` -/

/-- The `file_paths` dictionary of `load_data`: country name and the path
of its cleaned CSV file, in iteration order. -/
def filePaths : List (String × String) :=
  [("Benin", "data/benin_clean.csv"),
   ("Sierra Leone", "data/sierraleone_clean.csv"),
   ("Togo", "data/togo_clean.csv")]

/-- `df['Country'] = country`: append the constant country column. -/
def withCountry (t : Table) (country : String) : Table :=
  ⟨t.cols ++ [("Country", List.replicate t.nrows (Cell.str country))]⟩

/-- `pd.concat(dataframes, ignore_index=True)`: the union of the column
names in order of first appearance; a frame lacking a column contributes
`NaN` rows for it. -/
def concatTables (ts : List Table) : Table :=
  ⟨((ts.map (fun t => t.cols.map Prod.fst)).flatten).dedup.map
    (fun n => (n, (ts.map
      (fun t => (t.getCol n).getD (List.replicate t.nrows Cell.na))).flatten))⟩

/-- The `dataframes` list built by the loop of `load_data`: for each
listed file that exists, the table read from it with its `Country` column
appended.  The file system is a map from paths to the table `pd.read_csv`
yields, `none` when the file does not exist. -/
def foundFrames (fs : String → Option Table) : List Table :=
  filePaths.filterMap (fun cp => (fs cp.2).map (fun t => withCountry t cp.1))

/-- The warnings printed by the loop of `load_data`, one per missing
file. -/
def missingWarnings (fs : String → Option Table) : List String :=
  filePaths.filterMap
    (fun cp => if fs cp.2 = none
               then some ("Warning: " ++ cp.2 ++ " not found")
               else none)

/-- `load_data`: read every existing source file, tag it with its country,
and concatenate; a missing file only produces a warning; when no file was
read at all the result is `None`.  The first component collects the
printed warnings. -/
def load_data (fs : String → Option Table) : List String × Option Table :=
  (missingWarnings fs,
   if foundFrames fs = [] then none else some (concatTables (foundFrames fs)))

/-- The numeric, non-missing values of a column, in row order (pandas
reductions such as `mean`, `median`, `std` skip `NaN` entries). -/
def numVals (c : Column) : List ℚ :=
  c.filterMap (fun x => match x with | .num q => some q | _ => none)

/-- `Series.mean()`: `NaN` on an empty series. -/
def listMean (xs : List ℚ) : Option ℚ :=
  if xs = [] then none else some (xs.sum / (xs.length : ℚ))

/-- Sort ascending (used by the median). -/
def sortAsc (xs : List ℚ) : List ℚ := xs.insertionSort (· ≤ ·)

/-- `Series.median()`: middle element of the sorted values, or the mean of
the two middle elements; `NaN` on an empty series. -/
def listMedian (xs : List ℚ) : Option ℚ :=
  if xs = [] then none
  else
    let s := sortAsc xs
    let n := xs.length
    if n % 2 = 1 then some (s.getD (n / 2) 0)
    else some ((s.getD (n / 2 - 1) 0 + s.getD (n / 2) 0) / 2)

/-- The sample variance (`ddof=1`), `NaN` for fewer than two values.
`Series.std()` is its square root; we keep the variance because a square
root of a rational need not be rational.  Every property proved below
depends only on whether the variance is zero or on the relative order of
variances, and `Real.sqrt` is strictly monotone on `[0, ∞)`, so nothing
is lost by this representation. -/
def sampleVar (xs : List ℚ) : Option ℚ :=
  if xs.length < 2 then none
  else some (((xs.map (fun x => (x - xs.sum / (xs.length : ℚ)) ^ 2)).sum)
              / ((xs.length : ℚ) - 1))

/-- The result dictionary of `calculate_metrics`.  The `std` field stores
the sample variance, the square of the standard deviation the source
returns (see `sampleVar`). -/
structure Metrics where
  mean : Option ℚ
  median : Option ℚ
  std : Option ℚ
  count : ℕ
deriving DecidableEq, Repr

/-- `calculate_metrics(df, metric)`: summary statistics of the named
column.  `df[metric]` raises a `KeyError` when the column is absent,
modelled by `none`; the function itself has no `try`/`except`, so the
error propagates. -/
def calculate_metrics (t : Table) (metric : String) : Option Metrics :=
  (t.getCol metric).map (fun c =>
    { mean := listMean (numVals c)
      median := listMedian (numVals c)
      std := sampleVar (numVals c)
      count := t.nrows })

/-! ## `app/main.py` — the ranking computation of `show_regional_rankings`

The source computes, for `df_all.groupby('Country')[ranking_metric]`:

    Average   = mean,  Median = median,
    Stability = 1 / std,  Records = count (non-null count),

rounds the aggregate frame to two decimals, ranks `Stability` and
`Average` descending with `Series.rank` (default `method='average'`,
`na_option='keep'`), and sets
`Overall Score = (Potential Rank + Stability Rank) / 2`.

We embed the grouped data as the `(Country, metric)` projection of
`df_all`: one `(country, value)` pair per row, `none` for a `NaN` metric
entry. -/

/-- One row's `Country` label and metric value (`none` = `NaN`). -/
abbrev GroupedRows := List (String × Option ℚ)

/-- The group keys, one per distinct country. -/
def keysOf (rows : GroupedRows) : List String :=
  (rows.map Prod.fst).dedup

/-- The non-null metric values of one group, in row order — the series the
grouped aggregations see. -/
def groupVals (rows : GroupedRows) (k : String) : List ℚ :=
  rows.filterMap (fun r => if r.1 = k then r.2 else none)

/-- `Average`: group mean (`NaN` when the group has no non-null value). -/
def avgOf (rows : GroupedRows) (k : String) : Option ℚ :=
  listMean (groupVals rows k)

/-- `Median`: group median. -/
def medOf (rows : GroupedRows) (k : String) : Option ℚ :=
  listMedian (groupVals rows k)

/-- `Records`: the non-null count of the group. -/
def recordsOf (rows : GroupedRows) (k : String) : ℕ :=
  (groupVals rows k).length

/-- `Stability = 1 / std`: `NaN` when `std` is `NaN` (fewer than two
values), the IEEE infinity `1 / 0.0` when the deviation is zero (`⊤`),
otherwise a positive value.  As with `sampleVar`, the finite value is
represented by the inverse variance `1 / std²`: the map `s ↦ s²` is a
strictly monotone bijection of the positive reals, so this representative
has the same zero/infinite behaviour and the same relative order as
`1 / std`, which is all the ranking reads from it. -/
def stabilityOf (rows : GroupedRows) (k : String) : Option (WithTop ℚ) :=
  (sampleVar (groupVals rows k)).map
    (fun v => if v = 0 then ⊤ else ((v⁻¹ : ℚ) : WithTop ℚ))

/-- Round to the nearest integer, ties to the even integer — the rounding
`DataFrame.round` (IEEE `round-half-even`) applies. -/
def roundHalfEven (q : ℚ) : ℤ :=
  if q - ⌊q⌋ < 1 / 2 then ⌊q⌋
  else if 1 / 2 < q - ⌊q⌋ then ⌊q⌋ + 1
  else if ⌊q⌋ % 2 = 0 then ⌊q⌋ else ⌊q⌋ + 1

/-- `.round(2)`: round to two decimal places, ties to even. -/
def round2 (q : ℚ) : ℚ := (roundHalfEven (q * 100) : ℚ) / 100

/-- The rounded `Average` column entry of a group. -/
def avgR (rows : GroupedRows) (k : String) : Option ℚ :=
  (avgOf rows k).map round2

/-- The rounded `Stability` column entry of a group (rounding fixes the
infinity). -/
def stabR (rows : GroupedRows) (k : String) : Option (WithTop ℚ) :=
  (stabilityOf rows k).map (WithTop.map round2)

/-- Sort a list in descending order (the sort underlying a descending
`Series.rank`). -/
def sortDesc {α : Type} [LinearOrder α] (vs : List α) : List α :=
  vs.insertionSort (· ≥ ·)

/-- The 1-based positions at which `v` occurs in `s`, the scan starting at
position `i`. -/
def tiePositionsFrom {α : Type} [DecidableEq α] (s : List α) (v : α)
    (i : ℕ) : List ℕ :=
  match s with
  | [] => []
  | a :: t =>
    if a = v then i :: tiePositionsFrom t v (i + 1)
    else tiePositionsFrom t v (i + 1)

/-- `Series.rank(ascending=False, method='average')` of the value `v`
within the values `vs`: sort descending, give each entry its 1-based
ordinal position, and average the positions of the entries equal to
`v`. -/
def pdRankDesc {α : Type} [LinearOrder α] (vs : List α) (v : α) : ℚ :=
  let pos := tiePositionsFrom (sortDesc vs) v 1
  (pos.sum : ℚ) / (pos.length : ℚ)

/-- The non-`NaN` entries of the rounded `Average` column
(`na_option='keep'` ranks only these). -/
def definedAvgs (rows : GroupedRows) : List ℚ :=
  ((keysOf rows).map (avgR rows)).filterMap id

/-- The non-`NaN` entries of the rounded `Stability` column. -/
def definedStabs (rows : GroupedRows) : List (WithTop ℚ) :=
  ((keysOf rows).map (stabR rows)).filterMap id

/-- `rankings['Potential Rank']` for one group (`NaN` for a `NaN`
average). -/
def potentialRank (rows : GroupedRows) (k : String) : Option ℚ :=
  (avgR rows k).map (pdRankDesc (definedAvgs rows))

/-- `rankings['Stability Rank']` for one group. -/
def stabilityRank (rows : GroupedRows) (k : String) : Option ℚ :=
  (stabR rows k).map (pdRankDesc (definedStabs rows))

/-- `rankings['Overall Score'] = (Potential Rank + Stability Rank) / 2`
(`NaN` when either rank is `NaN`). -/
def overallScore (rows : GroupedRows) (k : String) : Option ℚ :=
  match potentialRank rows k, stabilityRank rows k with
  | some p, some s => some ((p + s) / 2)
  | _, _ => none

/-- Closed form of the pandas `method='average'` descending rank (proved
equal to `pdRankDesc` in `pdRankDesc_eq_rankFormula`): the number of
strictly greater entries, plus half of one more than the number of tied
entries. -/
def rankFormula {α : Type} [LinearOrder α] (vs : List α) (v : α) : ℚ :=
  (vs.countP (fun w => decide (v < w)) : ℚ) +
    ((vs.countP (fun w => decide (w = v)) : ℚ) + 1) / 2

/-- Dense descending rank as the spec's glossary defines it ("rank
assignment with no gaps for ties"): one plus the number of distinct
strictly greater values.  This definition follows the spec's words, for
comparison with the code's ranking. -/
def denseRankDesc {α : Type} [LinearOrder α] (vs : List α) (v : α) : ℚ :=
  (((vs.filter (fun w => decide (v < w))).dedup).length : ℚ) + 1

/-! ## Concrete example data (used to instantiate the theorems below) -/

/-- Column `A` of the spec's filtering scenario: `[1, None, 3, 4, 5]`. -/
def exA : Column := [.num 1, .na, .num 3, .num 4, .num 5]

/-- Column `B` of the spec's filtering scenario: `[1, 2, 3, 4, 5]`. -/
def exB : Column := [.num 1, .num 2, .num 3, .num 4, .num 5]

/-- The spec's filtering scenario table. -/
def exT : Table := ⟨[("A", exA), ("B", exB)]⟩

/-- A table with named columns and zero rows. -/
def exEmpty : Table := ⟨[("A", []), ("B", [])]⟩

/-- Grouped rows with two groups tied on their average (`A` and `B` both
average `6`) and a third group below them. -/
def exTied : GroupedRows :=
  [("A", some 5), ("A", some 7), ("B", some 5), ("B", some 7),
   ("C", some 1), ("C", some 1)]

/-- The spec's ranking scenario: group `X` with values `[10, 20, 30]` and
group `Y` with values `[12, 18, 15]`. -/
def rowsXY : GroupedRows :=
  [("X", some 10), ("X", some 20), ("X", some 30),
   ("Y", some 12), ("Y", some 18), ("Y", some 15)]

/-- A group with two equal values (standard deviation zero). -/
def exConst : GroupedRows := [("X", some 5), ("X", some 5)]

/-- Two groups where `A` has both the higher average and the higher
stability. -/
def rowsMono : GroupedRows :=
  [("A", some 10), ("A", some 12), ("B", some 1), ("B", some 5)]

/-- A file system in which no source file exists. -/
def fsNone : String → Option Table := fun _ => none

/-! ## Helper lemmas -/

/-- In a list of named columns with distinct names, the name determines
the column. -/
theorem eq_of_mem_of_nodup_fst {l : List (String × Column)}
    (hnd : (l.map Prod.fst).Nodup) {a b : String × Column}
    (ha : a ∈ l) (hb : b ∈ l) (hfst : a.1 = b.1) : a = b := by
  induction l with
  | nil => cases ha
  | cons c t ih =>
    rw [List.map_cons, List.nodup_cons] at hnd
    rw [List.mem_cons] at ha hb
    rcases ha with ha | ha <;> rcases hb with hb | hb
    · rw [ha, hb]
    · subst ha
      exact absurd (hfst ▸ List.mem_map_of_mem Prod.fst hb) hnd.1
    · subst hb
      exact absurd (hfst ▸ List.mem_map_of_mem Prod.fst ha) hnd.1
    · exact ih hnd.2 ha hb

/-- Membership of a name in `colsToDrop`, for tables with distinct column
names. -/
theorem mem_colsToDrop_iff {t : Table} {threshold : ℚ}
    (hnd : (t.cols.map Prod.fst).Nodup) {nc : String × Column}
    (hmem : nc ∈ t.cols) :
    nc.1 ∈ colsToDrop t threshold ↔ fracExceeds nc.2 threshold = true := by
  unfold colsToDrop
  constructor
  · intro h
    obtain ⟨nc', hnc', hfst⟩ := List.mem_map.mp h
    obtain ⟨hmem', hex⟩ := List.mem_filter.mp hnc'
    have : nc' = nc := eq_of_mem_of_nodup_fst hnd hmem' hmem hfst
    exact this ▸ hex
  · intro h
    exact List.mem_map_of_mem Prod.fst (List.mem_filter.mpr ⟨hmem, h⟩)

/-- `fracExceeds` is false exactly when the missing fraction (with the
convention `0 / 0 = 0` of rational division) is at most the threshold,
for a nonnegative threshold. -/
theorem fracExceeds_eq_false_iff {c : Column} {threshold : ℚ}
    (h0 : 0 ≤ threshold) :
    fracExceeds c threshold = false ↔
      (countNa c : ℚ) / (c.length : ℚ) ≤ threshold := by
  unfold fracExceeds missingFrac
  rcases eq_or_ne c.length 0 with h | h
  · have hc : c = [] := List.length_eq_zero.mp h
    subst hc
    simp [countNa, h0]
  · simp only [h, if_neg h]
    simp [not_lt]

/-- Dropping no columns is the identity. -/
theorem dropColumns_nil (t : Table) : t.dropColumns [] = t := by
  unfold Table.dropColumns
  cases t with
  | mk cols => simp

/-- If no column of `t` exceeds the threshold, nothing is listed for
dropping. -/
theorem colsToDrop_eq_nil {t : Table} {threshold : ℚ}
    (h : ∀ nc ∈ t.cols, fracExceeds nc.2 threshold = false) :
    colsToDrop t threshold = [] := by
  unfold colsToDrop
  rw [List.map_eq_nil_iff, List.filter_eq_nil_iff]
  intro nc hnc
  simp [h nc hnc]

/-! ## Claims about `drop_high_missing` -/

/-- C1: for a table with distinct column names and a threshold in
`[0, 1]`, `drop_high_missing` keeps exactly the columns whose fraction of
missing entries is at most the threshold (columns at exactly the
threshold included), and drops exactly those whose fraction strictly
exceeds it. -/
theorem drop_high_missing_keeps_iff_frac_le (t : Table) (threshold : ℚ)
    (hnd : (t.cols.map Prod.fst).Nodup)
    (h0 : 0 ≤ threshold) (h1 : threshold ≤ 1) (nc : String × Column) :
    nc ∈ (dropHighMissing t threshold).cols ↔
      nc ∈ t.cols ∧ (countNa nc.2 : ℚ) / (nc.2.length : ℚ) ≤ threshold := by
  unfold dropHighMissing Table.dropColumns
  simp only [List.mem_filter, Bool.not_eq_true']
  constructor
  · rintro ⟨hmem, hcont⟩
    refine ⟨hmem, ?_⟩
    rw [← fracExceeds_eq_false_iff h0]
    by_contra hex
    rw [Bool.not_eq_false] at hex
    have : nc.1 ∈ colsToDrop t threshold :=
      (mem_colsToDrop_iff hnd hmem).mpr hex
    simp [this] at hcont
  · rintro ⟨hmem, hfrac⟩
    refine ⟨hmem, ?_⟩
    rw [← fracExceeds_eq_false_iff h0] at hfrac
    rw [Bool.eq_false_iff]
    intro hcont
    simp at hcont
    have := (mem_colsToDrop_iff hnd hmem).mp hcont
    rw [hfrac] at this
    cases this

/-- C5: the Missing-Data Filter is idempotent — filtering an
already-filtered table at the same threshold returns the same table. -/
theorem drop_high_missing_idempotent (t : Table) (threshold : ℚ) :
    dropHighMissing (dropHighMissing t threshold) threshold =
      dropHighMissing t threshold := by
  have hnil : colsToDrop (dropHighMissing t threshold) threshold = [] := by
    apply colsToDrop_eq_nil
    intro nc hnc
    unfold dropHighMissing Table.dropColumns at hnc
    obtain ⟨hmem, hcont⟩ := List.mem_filter.mp hnc
    rw [Bool.not_eq_eq_eq_not, Bool.not_true] at hcont
    by_contra hex
    rw [Bool.not_eq_false] at hex
    have : nc.1 ∈ colsToDrop t threshold :=
      List.mem_map_of_mem Prod.fst (List.mem_filter.mpr ⟨hmem, hex⟩)
    simp [this] at hcont
  conv_lhs => rw [dropHighMissing, hnil, dropColumns_nil]

/-- C8: `drop_high_missing` has no side effect on the cleaner — the
stored frame after the call is the one before it, and the returned frame
consists of columns of the stored frame, with their rows, values and
order unchanged (a sublist of its columns). -/
theorem drop_high_missing_no_side_effect (cl : SolarDataCleaner)
    (threshold : ℚ) :
    (cl.drop_high_missing threshold).2 = cl ∧
      ((cl.drop_high_missing threshold).1).cols.Sublist cl.df.cols :=
  ⟨rfl, List.filter_sublist cl.df.cols⟩

/-- C10: on a table with zero rows every missing fraction is `NaN`, which
never exceeds the threshold, so `drop_high_missing` drops nothing and
returns the table unchanged — whatever the threshold. -/
theorem drop_high_missing_zero_rows_drops_nothing (t : Table)
    (threshold : ℚ) (h : ∀ c ∈ t.cols, c.2.length = 0) :
    dropHighMissing t threshold = t := by
  have hnil : colsToDrop t threshold = [] := by
    apply colsToDrop_eq_nil
    intro nc hnc
    unfold fracExceeds missingFrac
    rw [h nc hnc]
    simp
  rw [dropHighMissing, hnil, dropColumns_nil]

/-! ## Claims about `calculate_metrics` -/

/-- C9: when the requested column is absent, `df[metric]` raises a
`KeyError` and `calculate_metrics` propagates it (`none`): there is no
recovery. -/
theorem calculate_metrics_absent_column_fails (t : Table) (metric : String)
    (h : metric ∉ t.cols.map Prod.fst) : calculate_metrics t metric = none := by
  unfold calculate_metrics Table.getCol
  rw [List.find?_eq_none.mpr]
  · rfl
  · intro nc hnc
    simp only [decide_eq_true_eq]
    intro heq
    exact h (heq ▸ List.mem_map_of_mem Prod.fst hnc)

/-- C3: for a well-formed table containing the requested column, the
`count` field of `calculate_metrics` is the total row count `len(df)` of
the table — the length of the column, rows with missing entries (in this
or any other column) included — not the non-null count of the metric
column. -/
theorem calculate_metrics_count_is_row_count (t : Table) (metric : String)
    (col : Column) (hcol : t.getCol metric = some col)
    (hw : t.WellFormed) :
    (calculate_metrics t metric).map Metrics.count = some t.nrows ∧
      col.length = t.nrows := by
  constructor
  · unfold calculate_metrics
    rw [hcol]
    rfl
  · unfold Table.getCol at hcol
    obtain ⟨nc, hfind, hsnd⟩ := Option.map_eq_some'.mp hcol
    exact hsnd ▸ hw nc (List.mem_of_find?_eq_some hfind)

/-! ## Claims about `load_data` -/

/-- A `filterMap` by a guarded `some` is a `filter` followed by a
`map`. -/
theorem filterMap_guard_eq_filter_map {α β : Type} (p : α → Prop)
    [DecidablePred p] (g : α → β) (l : List α) :
    l.filterMap (fun a => if p a then some (g a) else none) =
      (l.filter (fun a => decide (p a))).map g := by
  induction l with
  | nil => rfl
  | cons a t ih =>
    by_cases h : p a
    · rw [List.filterMap_cons, List.filter_cons, if_pos h,
        if_pos (decide_eq_true h), List.map_cons, ih]
    · rw [List.filterMap_cons, List.filter_cons, if_neg h,
        if_neg (by simpa using h), ih]

/-- No frame is read exactly when every listed file is missing. -/
theorem foundFrames_eq_nil_iff (fs : String → Option Table) :
    foundFrames fs = [] ↔ ∀ cp ∈ filePaths, fs cp.2 = none := by
  unfold foundFrames
  rw [List.filterMap_eq_nil_iff]
  constructor
  · intro h cp hcp
    exact Option.map_eq_none'.mp (h cp hcp)
  · intro h cp hcp
    rw [h cp hcp]
    rfl

/-- C7: the loader's error policy.  (1) `load_data` returns the failure
signal `None` exactly when none of the three source files exists; (2) the
warnings printed are exactly one "not found" message per missing file, in
order — a missing file is logged and skipped; (3) as soon as one source
file exists the loader continues and returns a combined dataset. -/
theorem load_data_missing_source_policy (fs : String → Option Table) :
    ((load_data fs).2 = none ↔ ∀ cp ∈ filePaths, fs cp.2 = none) ∧
    (load_data fs).1 =
      (filePaths.filter (fun cp => decide (fs cp.2 = none))).map
        (fun cp => "Warning: " ++ cp.2 ++ " not found") ∧
    ((∃ cp ∈ filePaths, fs cp.2 ≠ none) →
      ∃ T, (load_data fs).2 = some T) := by
  refine ⟨?_, ?_, ?_⟩
  · show (if foundFrames fs = [] then none else _) = none ↔ _
    rw [← foundFrames_eq_nil_iff]
    constructor
    · intro h
      by_contra hne
      rw [if_neg hne] at h
      cases h
    · intro h
      rw [if_pos h]
  · exact filterMap_guard_eq_filter_map
      (fun cp : String × String => fs cp.2 = none) _ _
  · rintro ⟨cp, hcp, hsome⟩
    show ∃ T, (if foundFrames fs = [] then none else
      some (concatTables (foundFrames fs))) = some T
    rw [if_neg]
    · exact ⟨_, rfl⟩
    · intro hnil
      exact hsome ((foundFrames_eq_nil_iff fs).mp hnil cp hcp)

/-! ## The pandas average rank: closed form and monotonicity -/

section RankLemmas

variable {α : Type} [LinearOrder α]

/-- A value that does not occur has no tie positions. -/
theorem tiePositionsFrom_eq_nil {s : List α} {v : α}
    (h : ∀ a ∈ s, a ≠ v) : ∀ i, tiePositionsFrom s v i = [] := by
  induction s with
  | nil => intro i; rfl
  | cons a t ih =>
    intro i
    rw [tiePositionsFrom, if_neg (h a (List.mem_cons_self a t))]
    exact ih (fun b hb => h b (List.mem_cons_of_mem a hb)) (i + 1)

/-- There are as many tie positions as occurrences. -/
theorem length_tiePositionsFrom (s : List α) (v : α) :
    ∀ i, (tiePositionsFrom s v i).length =
      s.countP (fun w => decide (w = v)) := by
  induction s with
  | nil => intro i; rfl
  | cons a t ih =>
    intro i
    rw [tiePositionsFrom, List.countP_cons]
    by_cases h : a = v
    · rw [if_pos h, List.length_cons, ih (i + 1), if_pos (by simp [h])]
    · rw [if_neg h, ih (i + 1), if_neg (by simp [h])]
      omega

/-- Sum of the tie positions of `v` in a descending-sorted list scanned
from position `i`: writing `e` for the number of occurrences of `v` and
`g` for the number of entries strictly greater, the occurrences sit at
the consecutive positions `i + g, …, i + g + e - 1`, so twice their sum
plus `e` is `2e(i + g) + e²`. -/
theorem two_mul_sum_tiePositionsFrom {s : List α}
    (hs : s.Sorted (· ≥ ·)) (v : α) :
    ∀ i, 2 * (tiePositionsFrom s v i).sum +
        s.countP (fun w => decide (w = v)) =
      2 * s.countP (fun w => decide (w = v)) *
          (i + s.countP (fun w => decide (v < w))) +
        s.countP (fun w => decide (w = v)) *
          s.countP (fun w => decide (w = v)) := by
  induction s with
  | nil => intro i; simp [tiePositionsFrom]
  | cons a t ih =>
    rw [List.sorted_cons] at hs
    intro i
    have iht := ih hs.2
    by_cases ha : a = v
    · subst ha
      have hgt : t.countP (fun w => decide (a < w)) = 0 := by
        rw [List.countP_eq_zero]
        intro b hb
        simpa using not_lt_of_le (hs.1 b hb)
      have iht1 := iht (i + 1)
      rw [hgt] at iht1
      rw [tiePositionsFrom, if_pos rfl, List.countP_cons, List.countP_cons,
        if_pos (by simp), if_neg (by simp), hgt, List.sum_cons]
      zify at iht1 ⊢
      linear_combination iht1
    · by_cases hlt : v < a
      · have iht1 := iht (i + 1)
        rw [tiePositionsFrom, if_neg ha, List.countP_cons, List.countP_cons,
          if_neg (by simp [ha]), if_pos (by simpa using hlt)]
        zify at iht1 ⊢
        linear_combination iht1
      · have halt : a < v := lt_of_le_of_ne (le_of_not_lt hlt) ha
        have hnot : ∀ b ∈ t, b ≠ v := by
          intro b hb
          exact ne_of_lt (lt_of_le_of_lt (hs.1 b hb) halt)
        have hcnt : t.countP (fun w => decide (w = v)) = 0 := by
          rw [List.countP_eq_zero]
          intro b hb
          simpa using hnot b hb
        rw [tiePositionsFrom, if_neg ha,
          tiePositionsFrom_eq_nil hnot (i + 1), List.countP_cons,
          if_neg (by simp [ha]), hcnt]
        simp

/-- The pandas `method='average'` descending rank of a value that occurs
in the list equals its closed form: the number of strictly greater
entries plus half of one more than the number of tied entries. -/
theorem pdRankDesc_eq_rankFormula (vs : List α) (v : α) (hv : v ∈ vs) :
    pdRankDesc vs v = rankFormula vs v := by
  have hperm : List.Perm (sortDesc vs) vs := List.perm_insertionSort _ vs
  have hsorted : (sortDesc vs).Sorted (· ≥ ·) :=
    List.sorted_insertionSort (· ≥ ·) vs
  have hcountEq : (sortDesc vs).countP (fun w => decide (w = v)) =
      vs.countP (fun w => decide (w = v)) := hperm.countP_eq _
  have hcountGt : (sortDesc vs).countP (fun w => decide (v < w)) =
      vs.countP (fun w => decide (v < w)) := hperm.countP_eq _
  have hlen := length_tiePositionsFrom (sortDesc vs) v 1
  have hsum := two_mul_sum_tiePositionsFrom hsorted v 1
  rw [hcountEq] at hlen hsum
  rw [hcountGt] at hsum
  have hepos : 0 < vs.countP (fun w => decide (w = v)) :=
    List.countP_pos_iff.mpr ⟨v, hv, by simp⟩
  rw [show pdRankDesc vs v =
      ((tiePositionsFrom (sortDesc vs) v 1).sum : ℚ) /
        ((tiePositionsFrom (sortDesc vs) v 1).length : ℚ) from rfl]
  unfold rankFormula
  rw [hlen]
  have hene : ((vs.countP (fun w => decide (w = v)) : ℚ)) ≠ 0 := by
    exact_mod_cast Nat.pos_iff_ne_zero.mp hepos
  rw [div_eq_iff hene]
  have hq : 2 * ((tiePositionsFrom (sortDesc vs) v 1).sum : ℚ) +
      (vs.countP (fun w => decide (w = v)) : ℚ) =
    2 * (vs.countP (fun w => decide (w = v)) : ℚ) *
        (1 + (vs.countP (fun w => decide (v < w)) : ℚ)) +
      (vs.countP (fun w => decide (w = v)) : ℚ) *
        (vs.countP (fun w => decide (w = v)) : ℚ) := by
    exact_mod_cast hsum
  linear_combination hq / 2

/-- Every entry at least `w`, or equal to `v`, with `w < v`, is counted
among the entries strictly greater than `w`. -/
theorem countP_gt_add_countP_eq_le (l : List α) {v w : α} (hwv : w < v) :
    l.countP (fun x => decide (v < x)) +
        l.countP (fun x => decide (x = v)) ≤
      l.countP (fun x => decide (w < x)) := by
  induction l with
  | nil => exact Nat.le_refl 0
  | cons a t ih =>
    simp only [List.countP_cons, decide_eq_true_eq]
    rcases lt_trichotomy a v with hav | hav | hav
    · have h1 : ¬ v < a := lt_asymm hav
      have h2 : a ≠ v := ne_of_lt hav
      by_cases h3 : w < a
      · rw [if_neg h1, if_neg h2, if_pos h3]
        omega
      · rw [if_neg h1, if_neg h2, if_neg h3]
        omega
    · have h1 : ¬ v < a := by rw [hav]; exact lt_irrefl v
      have h3 : w < a := by rw [hav]; exact hwv
      rw [if_neg h1, if_pos hav, if_pos h3]
      omega
    · have h2 : a ≠ v := ne_of_gt hav
      have h3 : w < a := lt_trans hwv hav
      rw [if_pos hav, if_neg h2, if_pos h3]
      omega

/-- The average rank is antitone: a larger value gets a rank at most that
of a smaller value occurring in the list. -/
theorem rankFormula_antitone {vs : List α} {v w : α} (hw : w ∈ vs)
    (hle : w ≤ v) : rankFormula vs v ≤ rankFormula vs w := by
  rcases eq_or_lt_of_le hle with heq | hlt
  · rw [heq]
  · have hcount := countP_gt_add_countP_eq_le vs hlt
    have hwpos : 0 < vs.countP (fun x => decide (x = w)) :=
      List.countP_pos_iff.mpr ⟨w, hw, by simp⟩
    unfold rankFormula
    have h1 : (vs.countP (fun x => decide (v < x)) : ℚ) +
        (vs.countP (fun x => decide (x = v)) : ℚ) ≤
        (vs.countP (fun x => decide (w < x)) : ℚ) := by
      exact_mod_cast hcount
    have h2 : (1 : ℚ) ≤ (vs.countP (fun x => decide (x = w)) : ℚ) := by
      exact_mod_cast hwpos
    have h3 : (0 : ℚ) ≤ (vs.countP (fun x => decide (x = v)) : ℚ) := by
      positivity
    linarith

end RankLemmas

/-! ## Rounding lemmas -/

/-- `roundHalfEven` rounds to the floor or its successor. -/
theorem roundHalfEven_bounds (q : ℚ) :
    ⌊q⌋ ≤ roundHalfEven q ∧ roundHalfEven q ≤ ⌊q⌋ + 1 := by
  unfold roundHalfEven
  split_ifs <;> omega

/-- `roundHalfEven` is monotone. -/
theorem roundHalfEven_mono {x y : ℚ} (h : x ≤ y) :
    roundHalfEven x ≤ roundHalfEven y := by
  have hf : ⌊x⌋ ≤ ⌊y⌋ := Int.floor_mono h
  rcases lt_or_eq_of_le hf with hlt | heq
  · have bx := roundHalfEven_bounds x
    have hy := roundHalfEven_bounds y
    omega
  · have hfr : x - (⌊y⌋ : ℚ) ≤ y - (⌊y⌋ : ℚ) := by linarith
    unfold roundHalfEven
    rw [heq]
    split_ifs <;> first | omega | linarith

/-- `round2` is monotone. -/
theorem round2_mono {x y : ℚ} (h : x ≤ y) : round2 x ≤ round2 y := by
  unfold round2
  have h100 : x * 100 ≤ y * 100 := by linarith
  have := roundHalfEven_mono h100
  have hc : ((roundHalfEven (x * 100) : ℚ)) ≤ (roundHalfEven (y * 100) : ℚ) := by
    exact_mod_cast this
  linarith

/-- Rounding each entry of `WithTop ℚ` is monotone (`⊤` stays `⊤`). -/
theorem withTop_map_round2_mono {x y : WithTop ℚ} (h : x ≤ y) :
    WithTop.map round2 x ≤ WithTop.map round2 y := by
  induction x using WithTop.recTopCoe with
  | top =>
    rw [top_le_iff.mp h]
  | coe a =>
    induction y using WithTop.recTopCoe with
    | top => exact le_top
    | coe b =>
      rw [WithTop.map_coe, WithTop.map_coe]
      exact WithTop.coe_le_coe.mpr (round2_mono (WithTop.coe_le_coe.mp h))

/-! ## Claims about the ranking computation -/

/-- C4: a group whose (at least two) values are all equal has standard
deviation zero; `1 / std` is then the float division `1 / 0.0`, which
yields the infinity sentinel — the `Stability` entry is `⊤`, before and
after rounding, rather than an error. -/
theorem stability_infinite_on_constant_group (rows : GroupedRows)
    (k : String) (c : ℚ) (h2 : 2 ≤ (groupVals rows k).length)
    (hc : ∀ x ∈ groupVals rows k, x = c) :
    stabilityOf rows k = some ⊤ ∧ stabR rows k = some ⊤ := by
  have key : ∀ n : ℕ, 2 ≤ n → sampleVar (List.replicate n c) = some 0 := by
    intro n hn
    have hne : (n : ℚ) ≠ 0 := Nat.cast_ne_zero.mpr (by omega)
    unfold sampleVar
    rw [List.length_replicate, if_neg (by omega)]
    simp only [List.map_replicate, List.sum_replicate, List.length_replicate,
      nsmul_eq_mul]
    rw [mul_div_cancel_left₀ c hne, sub_self]
    simp
  have hvar : sampleVar (groupVals rows k) = some 0 := by
    have hrep : groupVals rows k =
        List.replicate (groupVals rows k).length c :=
      List.eq_replicate_iff.mpr ⟨rfl, hc⟩
    rw [hrep]
    exact key _ h2
  have h1 : stabilityOf rows k = some ⊤ := by
    unfold stabilityOf
    rw [hvar]
    simp
  refine ⟨h1, ?_⟩
  unfold stabR
  rw [h1]
  simp

/-- A group key with a non-`NaN` rounded average contributes it to the
ranked column. -/
theorem mem_definedAvgs {rows : GroupedRows} {k : String} {va : ℚ}
    (hk : k ∈ keysOf rows) (hva : avgR rows k = some va) :
    va ∈ definedAvgs rows := by
  unfold definedAvgs
  rw [List.mem_filterMap]
  exact ⟨some va, hva ▸ List.mem_map_of_mem (avgR rows) hk, rfl⟩

/-- A group key with a non-`NaN` rounded stability contributes it to the
ranked column. -/
theorem mem_definedStabs {rows : GroupedRows} {k : String}
    {sa : WithTop ℚ} (hk : k ∈ keysOf rows)
    (hsa : stabR rows k = some sa) : sa ∈ definedStabs rows := by
  unfold definedStabs
  rw [List.mem_filterMap]
  exact ⟨some sa, hsa ▸ List.mem_map_of_mem (stabR rows) hk, rfl⟩

/-- C2 (amended): for every group with defined (non-`NaN`) rounded
average and stability, `Potential Rank` is the pandas `method='average'`
descending rank of the group's rounded average among all groups' rounded
averages — the number of strictly greater entries plus half of one more
than the number of tied entries, so tied groups receive the mean of
their ordinal positions rather than a dense rank — `Stability Rank` is
the same rank of the rounded stability, and
`Overall Score = (Potential Rank + Stability Rank) / 2`. -/
theorem ranks_are_average_ranks (rows : GroupedRows) (k : String)
    (hk : k ∈ keysOf rows) (va : ℚ) (hva : avgR rows k = some va)
    (sa : WithTop ℚ) (hsa : stabR rows k = some sa) :
    potentialRank rows k = some (rankFormula (definedAvgs rows) va) ∧
    stabilityRank rows k = some (rankFormula (definedStabs rows) sa) ∧
    overallScore rows k = some ((rankFormula (definedAvgs rows) va +
      rankFormula (definedStabs rows) sa) / 2) := by
  have hva' : va ∈ definedAvgs rows := mem_definedAvgs hk hva
  have hsa' : sa ∈ definedStabs rows := mem_definedStabs hk hsa
  have h1 : potentialRank rows k =
      some (rankFormula (definedAvgs rows) va) := by
    unfold potentialRank
    rw [hva, Option.map_some', pdRankDesc_eq_rankFormula _ _ hva']
  have h2 : stabilityRank rows k =
      some (rankFormula (definedStabs rows) sa) := by
    unfold stabilityRank
    rw [hsa, Option.map_some', pdRankDesc_eq_rankFormula _ _ hsa']
  refine ⟨h1, h2, ?_⟩
  unfold overallScore
  rw [h1, h2]

/-- C6: the ranking is monotone — if group `a` has a strictly greater
average than group `b` and at least its stability, then `a`'s overall
score is at most `b`'s (lower is better). -/
theorem overall_score_monotone (rows : GroupedRows) (a b : String)
    (hka : a ∈ keysOf rows) (hkb : b ∈ keysOf rows)
    (xa xb : ℚ) (hxa : avgOf rows a = some xa) (hxb : avgOf rows b = some xb)
    (hx : xb < xa) (sa sb : WithTop ℚ)
    (hsa : stabilityOf rows a = some sa) (hsb : stabilityOf rows b = some sb)
    (hs : sb ≤ sa) :
    ∃ oa ob, overallScore rows a = some oa ∧
      overallScore rows b = some ob ∧ oa ≤ ob := by
  have hra : avgR rows a = some (round2 xa) := by
    unfold avgR; rw [hxa]; rfl
  have hrb : avgR rows b = some (round2 xb) := by
    unfold avgR; rw [hxb]; rfl
  have hsra : stabR rows a = some (WithTop.map round2 sa) := by
    unfold stabR; rw [hsa]; rfl
  have hsrb : stabR rows b = some (WithTop.map round2 sb) := by
    unfold stabR; rw [hsb]; rfl
  have hma : round2 xa ∈ definedAvgs rows := mem_definedAvgs hka hra
  have hmb : round2 xb ∈ definedAvgs rows := mem_definedAvgs hkb hrb
  have hmsa : WithTop.map round2 sa ∈ definedStabs rows :=
    mem_definedStabs hka hsra
  have hmsb : WithTop.map round2 sb ∈ definedStabs rows :=
    mem_definedStabs hkb hsrb
  have hp : pdRankDesc (definedAvgs rows) (round2 xa) ≤
      pdRankDesc (definedAvgs rows) (round2 xb) := by
    rw [pdRankDesc_eq_rankFormula _ _ hma, pdRankDesc_eq_rankFormula _ _ hmb]
    exact rankFormula_antitone hmb (round2_mono (le_of_lt hx))
  have hst : pdRankDesc (definedStabs rows) (WithTop.map round2 sa) ≤
      pdRankDesc (definedStabs rows) (WithTop.map round2 sb) := by
    rw [pdRankDesc_eq_rankFormula _ _ hmsa,
      pdRankDesc_eq_rankFormula _ _ hmsb]
    exact rankFormula_antitone hmsb (withTop_map_round2_mono hs)
  have hoa : overallScore rows a =
      some ((pdRankDesc (definedAvgs rows) (round2 xa) +
        pdRankDesc (definedStabs rows) (WithTop.map round2 sa)) / 2) := by
    unfold overallScore potentialRank stabilityRank
    rw [hra, hsra]
    rfl
  have hob : overallScore rows b =
      some ((pdRankDesc (definedAvgs rows) (round2 xb) +
        pdRankDesc (definedStabs rows) (WithTop.map round2 sb)) / 2) := by
    unfold overallScore potentialRank stabilityRank
    rw [hrb, hsrb]
    rfl
  exact ⟨_, _, hoa, hob, by linarith⟩

/-- C2 (counterexample): `Series.rank` defaults to `method='average'`,
not a dense rank.  In `exTied`, groups `A` and `B` tie on their (rounded)
average `6`; the code assigns them `Potential Rank` `1.5` — the mean of
the ordinal positions `1` and `2` — while the dense rank of their average
is `1`.  The claim that `PotentialRank` is the dense rank is therefore
false on this input. -/
theorem potentialRank_ne_dense_rank :
    potentialRank exTied "A" = some (3 / 2) ∧
    denseRankDesc (definedAvgs exTied) (round2 6) = 1 ∧
    ((3 : ℚ) / 2 ≠ 1) := by
  refine ⟨?_, ?_, by norm_num⟩
  · with_unfolding_all decide
  · with_unfolding_all decide

/-! ## Witnesses: the theorems above applied at concrete inputs -/

/-- Witness for C1, the spec's own scenario: at threshold `0.15` column
`A` (missing fraction `0.2`) is dropped and column `B` (missing fraction
`0`) is kept. -/
theorem drop_high_missing_keeps_iff_frac_le_witness :
    (("B", exB) ∈ (dropHighMissing exT (3 / 20)).cols) ∧
    (("A", exA) ∉ (dropHighMissing exT (3 / 20)).cols) := by
  constructor
  · exact (drop_high_missing_keeps_iff_frac_le exT (3 / 20)
      (by with_unfolding_all decide) (by norm_num) (by norm_num)
      ("B", exB)).mpr
      ⟨by with_unfolding_all decide, by with_unfolding_all decide⟩
  · intro hmem
    have h := (drop_high_missing_keeps_iff_frac_le exT (3 / 20)
      (by with_unfolding_all decide) (by norm_num) (by norm_num)
      ("A", exA)).mp hmem
    have hgt : ¬ ((countNa exA : ℚ) / ((exA : Column).length : ℚ) ≤ 3 / 20) := by
      with_unfolding_all decide
    exact hgt h.2

/-- Witness for C3: on the scenario table, the reported count for column
`A` is the full row count `5`, although `A` has only `4` non-null
values. -/
theorem calculate_metrics_count_is_row_count_witness :
    (calculate_metrics exT "A").map Metrics.count = some 5 ∧
    (numVals exA).length = 4 := by
  refine ⟨?_, by with_unfolding_all decide⟩
  have h := (calculate_metrics_count_is_row_count exT "A" exA
    (by with_unfolding_all decide) (by with_unfolding_all decide)).1
  rw [h]
  rfl

/-- Witness for C4: a group holding the two equal values `5, 5` has
variance zero and its stability entry is the infinity sentinel. -/
theorem stability_infinite_on_constant_group_witness :
    stabilityOf exConst "X" = some ⊤ ∧ stabR exConst "X" = some ⊤ :=
  stability_infinite_on_constant_group exConst "X" 5
    (by with_unfolding_all decide) (by with_unfolding_all decide)

/-- Witness for C6: group `A` (values `10, 12`: average `11`, stability
`1/2`) beats group `B` (values `1, 5`: average `3`, stability `1/8`) on
both criteria, and its overall score is at most `B`'s. -/
theorem overall_score_monotone_witness :
    ∃ oa ob, overallScore rowsMono "A" = some oa ∧
      overallScore rowsMono "B" = some ob ∧ oa ≤ ob :=
  overall_score_monotone rowsMono "A" "B"
    (by with_unfolding_all decide) (by with_unfolding_all decide)
    11 3 (by with_unfolding_all decide) (by with_unfolding_all decide)
    (by norm_num)
    ((1 / 2 : ℚ) : WithTop ℚ) ((1 / 8 : ℚ) : WithTop ℚ)
    (by with_unfolding_all decide) (by with_unfolding_all decide)
    (by with_unfolding_all decide)

/-- Witness for C7: with no source file present, `load_data` returns the
failure signal and prints the three "not found" warnings. -/
theorem load_data_missing_source_policy_witness :
    (load_data fsNone).2 = none ∧
    (load_data fsNone).1 =
      ["Warning: data/benin_clean.csv not found",
       "Warning: data/sierraleone_clean.csv not found",
       "Warning: data/togo_clean.csv not found"] := by
  have h := load_data_missing_source_policy fsNone
  refine ⟨h.1.mpr (fun cp _ => rfl), ?_⟩
  rw [h.2.1]
  with_unfolding_all decide

/-- Witness for C9: the scenario table has no column `GHI`, and
`calculate_metrics` fails on it. -/
theorem calculate_metrics_absent_column_fails_witness :
    calculate_metrics exT "GHI" = none :=
  calculate_metrics_absent_column_fails exT "GHI"
    (by with_unfolding_all decide)

/-- Witness for C10: a two-column table with zero rows passes through the
filter unchanged (threshold `0`). -/
theorem drop_high_missing_zero_rows_drops_nothing_witness :
    dropHighMissing exEmpty 0 = exEmpty :=
  drop_high_missing_zero_rows_drops_nothing exEmpty 0
    (by with_unfolding_all decide)

/-- Witness for the amended C2, the spec's ranking scenario: `X` has the
top average (`Potential Rank` 1), `Y` the top stability (`Stability Rank`
1), and `X`'s overall score is `(1 + 2) / 2`. -/
theorem ranks_are_average_ranks_witness :
    potentialRank rowsXY "X" = some 1 ∧
    stabilityRank rowsXY "Y" = some 1 ∧
    overallScore rowsXY "X" = some (3 / 2) := by
  have hx := ranks_are_average_ranks rowsXY "X"
    (by with_unfolding_all decide) 20 (by with_unfolding_all decide)
    ((1 / 100 : ℚ) : WithTop ℚ) (by with_unfolding_all decide)
  have hy := ranks_are_average_ranks rowsXY "Y"
    (by with_unfolding_all decide) 15 (by with_unfolding_all decide)
    ((11 / 100 : ℚ) : WithTop ℚ) (by with_unfolding_all decide)
  refine ⟨?_, ?_, ?_⟩
  · rw [hx.1]
    with_unfolding_all decide
  · rw [hy.2.1]
    with_unfolding_all decide
  · rw [hx.2.2]
    with_unfolding_all decide

end Solar
